import Mathlib

/-!
Verification of the rulit rule-engine core against its specification.

The TypeScript source is shallowly embedded: JS data values become the
inductive `JVal` (a JSON-like value model), JS objects become ordered
association lists of fields, impure JS functions (conditions, rule
actions) become functions threading an explicit world state, and code
that can `throw` returns `Except ErrVal`.  The embedded functions keep
the names of the source functions (`getSkipReason`, `mergeEffects`,
`deepMerge`, `cloneEffects`, `getPathValue`, `runSync`, `compile`, ...)
from `src/ruleset.ts`, `src/op.ts` and `src/field.ts`.
-/

namespace Rulit

/-- Model of a JS data value (the JSON-like fragment the engine manipulates):
`null`, booleans, numbers, strings, arrays, and plain objects represented as
ordered association lists of fields. -/
inductive JVal : Type where
  | null : JVal
  | bool (b : Bool) : JVal
  | num (n : Int) : JVal
  | str (s : String) : JVal
  | arr (elems : List JVal) : JVal
  | obj (fields : List (String × JVal)) : JVal

/-- A JS object value is a list of fields; `Effects` values handled by the
run loop are such objects. -/
abbrev Fields := List (String × JVal)

/-- The working `Effects` value of a run: a JS object. -/
abbrev Effects := Fields

/-- Property read on a JS object: the first field with the given key. -/
def lookupField : Fields → String → Option JVal
  | [], _ => none
  | (k, v) :: rest, key => if k = key then some v else lookupField rest key

/-- Property write on a JS object (`target[key] = v`): overwrite the existing
field in place, or append a new field at the end. -/
def setKey : Fields → String → JVal → Fields
  | [], key, v => [(key, v)]
  | (k, w) :: rest, key, v =>
    if k = key then (key, v) :: rest else (k, w) :: setKey rest key v

/-- `Object.assign(target, patch)`: shallow field-by-field overwrite,
processing the patch fields left to right. -/
def objAssign (target patch : Fields) : Fields :=
  patch.foldl (fun t kv => setKey t kv.1 kv.2) target

mutual

/-- `deepMerge(target, patch)` from `src/ruleset.ts`: for each patch entry in
order, merge it into the target (`deepMergeEntry`). -/
def deepMergeObj : Fields → Fields → Fields
  | target, [] => target
  | target, (key, v) :: rest => deepMergeObj (deepMergeEntry target key v) rest

/-- One iteration of `deepMerge`'s loop: a patch value that is a plain
(non-null, non-array) object is merged recursively into the corresponding
target field, re-created as `{}` when the current target value is missing,
not an object, or an array; any other patch value overwrites the field. -/
def deepMergeEntry : Fields → String → JVal → Fields
  | target, key, .obj patchFields =>
    let base : Fields :=
      match lookupField target key with
      | some (.obj targetFields) => targetFields
      | _ => []
    setKey target key (.obj (deepMergeObj base patchFields))
  | target, key, v => setKey target key v

end

/-- The merge strategies of `RunOptions.mergeStrategy`. -/
inductive MergeStrategy : Type where
  | assign : MergeStrategy
  | deep : MergeStrategy
deriving DecidableEq, Repr

/-- `mergeEffects(target, patch, strategy)` from `src/ruleset.ts`. -/
def mergeEffects (target : Effects) (patch : Fields) (strategy : MergeStrategy) : Effects :=
  match strategy with
  | .assign => objAssign target patch
  | .deep => deepMergeObj target patch

/-- `cloneEffects` (`structuredClone` / JSON round-trip): produces a deep copy
that is structurally equal to the input; in this value semantics the copy is
the value itself. -/
def cloneEffects (effects : Effects) : Effects := effects

/-! ### Field path resolution (`src/field.ts`) -/

/-- A thrown JS error value, rendered by `String(error)` as
`name ++ ": " ++ message` (or just `name` when the message is empty). -/
structure ErrVal : Type where
  name : String
  message : String
deriving DecidableEq, Repr

/-- `String(error)` on an `Error` object. -/
def renderError (e : ErrVal) : String :=
  if e.message = "" then e.name else e.name ++ ": " ++ e.message

/-- The guard `current && typeof current === "object"` of `getPathValue`:
true only for (non-null) objects and arrays. -/
def jsIsIndexable : Option JVal → Bool
  | some (.obj _) => true
  | some (.arr _) => true
  | _ => false

/-- Raw JS member read `current[part]` including its throwing cases: reading
a property of `undefined` or `null` throws a `TypeError`; on an object it is
a field lookup, on an array a numeric index, and on any other primitive it
yields `undefined`. -/
def jsGetMember : Option JVal → String → Except ErrVal (Option JVal)
  | none, _ => .error ⟨"TypeError", "Cannot read properties of undefined"⟩
  | some .null, _ => .error ⟨"TypeError", "Cannot read properties of null"⟩
  | some (.obj fields), part => .ok (lookupField fields part)
  | some (.arr elems), part =>
    .ok (match part.toNat? with
         | some i => elems.get? i
         | none => none)
  | some _, _ => .ok none

/-- The loop of `getPathValue`: walk the remaining path segments; when the
current value fails the indexability guard, return `undefined` without
touching it. -/
def getPathValueAux : List String → Option JVal → Except ErrVal (Option JVal)
  | [], current => .ok current
  | part :: rest, current =>
    if jsIsIndexable current then
      match jsGetMember current part with
      | .ok next => getPathValueAux rest next
      | .error e => .error e
    else
      .ok none

/-- `getPathValue(facts, path)` from `src/field.ts`: split the dotted path
and walk successive keys. -/
def getPathValue (facts : JVal) (path : String) : Except ErrVal (Option JVal) :=
  getPathValueAux (path.splitOn ".") (some facts)

/-! ### Conditions and composite operators (`src/op.ts`) -/

/-- A `ConditionTrace`: label, boolean result, optional `left`/`op`/`right`
detail values, optional evaluated-children list (present only on composite
traces), optional reason code.  `left` values that are label lists (as built
by `op.and`/`op.or`) are encoded as `JVal` string arrays. -/
inductive CTrace : Type where
  | mk (label : String) (result : Bool) (left : Option JVal) (op : Option String)
       (right : Option JVal) (children : Option (List CTrace))
       (reasonCode : Option String) : CTrace

/-- The `label` field of a condition trace. -/
def CTrace.label : CTrace → String
  | .mk l _ _ _ _ _ _ => l

/-- The `result` field of a condition trace. -/
def CTrace.result : CTrace → Bool
  | .mk _ r _ _ _ _ _ => r

/-- The `left` field of a condition trace. -/
def CTrace.left : CTrace → Option JVal
  | .mk _ _ l _ _ _ _ => l

/-- The `op` field of a condition trace. -/
def CTrace.op : CTrace → Option String
  | .mk _ _ _ o _ _ _ => o

/-- The `right` field of a condition trace. -/
def CTrace.right : CTrace → Option JVal
  | .mk _ _ _ _ r _ _ => r

/-- The `children` field of a condition trace. -/
def CTrace.children : CTrace → Option (List CTrace)
  | .mk _ _ _ _ _ c _ => c

/-- The `reasonCode` field of a condition trace. -/
def CTrace.reasonCode : CTrace → Option String
  | .mk _ _ _ _ _ _ rc => rc

/-- A condition: a JS function from facts to a `ConditionTrace`.  JS functions
may have side effects, so the embedding threads an explicit world state `W`
through every call. -/
def Cond (F W : Type) := F → W → CTrace × W

/-- `conditions.map((cond) => cond(facts))`: evaluate every condition in the
list, left to right, threading the world state; returns all child traces. -/
def threadConds {F W : Type} : List (Cond F W) → F → W → List CTrace × W
  | [], _, w => ([], w)
  | c :: rest, facts, w =>
    let (t, w1) := c facts w
    let (ts, w2) := threadConds rest facts w1
    (t :: ts, w2)

/-- `op.and(label, ...children)` from `src/op.ts`: evaluate all children
unconditionally; result is the conjunction (`every`), trace `children` holds
all child traces and `left` the child labels. -/
def opAnd {F W : Type} (label : String) (conditions : List (Cond F W)) : Cond F W :=
  fun facts w =>
    let (children, w1) := threadConds conditions facts w
    (CTrace.mk label (children.all (fun child => child.result))
      (some (.arr (children.map (fun child => .str child.label)))) (some "and") none
      (some children) none, w1)

/-- `op.or(label, ...children)` from `src/op.ts`: evaluate all children
unconditionally; result is the disjunction (`some`). -/
def opOr {F W : Type} (label : String) (conditions : List (Cond F W)) : Cond F W :=
  fun facts w =>
    let (children, w1) := threadConds conditions facts w
    (CTrace.mk label (children.any (fun child => child.result))
      (some (.arr (children.map (fun child => .str child.label)))) (some "or") none
      (some children) none, w1)

/-! ### The run loop (`src/ruleset.ts`) -/

/-- The per-rule condition loop of `runSync` (and `runAsync`): evaluate the
condition list sequentially, push every evaluated trace, and stop at the
first condition whose `result` is false, marking the rule unmatched. -/
def evalConds {F W : Type} : List (Cond F W) → F → W → Bool × List CTrace × W
  | [], _, w => (true, [], w)
  | c :: rest, facts, w =>
    let (t, w1) := c facts w
    if t.result then
      let (m, ts, w2) := evalConds rest facts w1
      (m, t :: ts, w2)
    else
      (false, [t], w1)

/-- Rule metadata (`RuleMeta`): optional tags, description, version, reason
code and enabled flag. -/
structure RuleMeta : Type where
  tags : Option (List String) := none
  description : Option String := none
  version : Option String := none
  reasonCode : Option String := none
  enabled : Option Bool := none
deriving DecidableEq, Repr

/-- Control outcome of invoking a rule action: it throws, returns a
suspension-bearing result (a `Promise`), or returns normally — with either
`undefined` (no patch) or a partial-effects patch object. -/
inductive ActionOut : Type where
  | throws (e : ErrVal) : ActionOut
  | promise : ActionOut
  | ret (patch : Option Fields) : ActionOut

/-- Everything observable from one synchronous action invocation: the value
of the working effects object after the action's in-place mutations, the
messages it passed to `ctx.trace.note` in order, and its control outcome. -/
structure ActionResult : Type where
  effects : Effects
  notes : List String
  out : ActionOut

/-- A rule action: a JS function of the action context.  It receives the
facts and the current working-effects object value and yields an
`ActionResult` while threading the world state. -/
def Action (F W : Type) := F → Effects → W → ActionResult × W

/-- A compiled `Rule`: id, priority, insertion order, condition list, action
and optional metadata. -/
structure Rule (F W : Type) : Type where
  id : String
  priority : Int
  order : Nat
  conditions : List (Cond F W)
  action : Action F W
  meta : Option RuleMeta

/-- The `activation` run option. -/
inductive Activation : Type where
  | all : Activation
  | first : Activation
deriving DecidableEq, Repr

/-- The `effectsMode` run option. -/
inductive EffectsMode : Type where
  | mutable : EffectsMode
  | immutable : EffectsMode
deriving DecidableEq, Repr

/-- `getSkipReason(meta, includeTags, excludeTags)` from `src/ruleset.ts`. -/
def getSkipReason (meta : Option RuleMeta) (includeTags excludeTags : Option (List String)) :
    Option String :=
  if meta.bind RuleMeta.enabled = some false then
    some "disabled"
  else
    let tags := (meta.bind RuleMeta.tags).getD []
    if (match includeTags with
        | some its => !its.isEmpty && !(its.any (fun tag => tags.contains tag))
        | none => false) then
      some "tag-filtered"
    else if (match excludeTags with
        | some ets => !ets.isEmpty && ets.any (fun tag => tags.contains tag)
        | none => false) then
      some "tag-excluded"
    else
      none

/-- A `RuleTrace`: one entry of the run trace per rule.  The wall-clock
`durationMs` field is real time and is not part of the value model. -/
structure RuleTrace : Type where
  ruleId : String
  matched : Bool
  conditions : List CTrace
  notes : List String
  error : Option String
  skippedReason : Option String
  meta : Option RuleMeta

/-- The full input of `runSync` (the destructured `RunInput` plus the
run options with their defaults already resolved). -/
structure RunInput (F W : Type) : Type where
  facts : F
  activation : Activation
  effectsMode : EffectsMode
  mergeStrategy : MergeStrategy
  rollbackOnError : Bool
  includeTags : Option (List String)
  excludeTags : Option (List String)
  rules : List (Rule F W)
  defaultEffectsFactory : Unit → Effects
  validateFactsFn : Option (F → Except ErrVal Unit)
  validateEffectsFn : Option (Effects → Except ErrVal Unit)

/-- The mutable state of the run loop: the committed `effects`, the `trace`
and `fired` accumulators, and the external world threaded through condition
and action calls. -/
structure LoopState (W : Type) : Type where
  effects : Effects
  trace : List RuleTrace
  fired : List String
  world : W

/-- The working effects for a matched rule: a deep clone under `immutable`
mode, the live effects value under `mutable` mode. -/
def workingEffectsOf (mode : EffectsMode) (effects : Effects) : Effects :=
  match mode with
  | .immutable => cloneEffects effects
  | .mutable => effects

/-- The exact message of the async-misuse error thrown by `runSync`. -/
def asyncDetectedMessage : String := "Async rule action detected. Use runAsync()."

/-- The `if (patch && typeof patch === "object") mergeEffects(...)` step: a
returned patch object is merged into the working effects; a `void` return
leaves them as the action mutated them. -/
def applyPatch (eff : Effects) (patch : Option Fields) (strategy : MergeStrategy) : Effects :=
  match patch with
  | some p => mergeEffects eff p strategy
  | none => eff

/-- The `catch` block of `runSync`'s action handling, entered with the thrown
value `e`: record `String(error)` in the rule trace's `error` and as an
appended `error:` note; rethrow unless rollback-on-error is requested; under
rollback, keep the previous committed effects in `immutable` mode — while in
`mutable` mode the working object is the live effects, so the action's
in-place mutations (`ares.effects`) persist.  The rule id is pushed onto
`fired` after the catch. -/
def catchAction {F W : Type} (inp : RunInput F W) (rule : Rule F W) (st : LoopState W)
    (condTraces : List CTrace) (ares : ActionResult) (w2 : W) (e : ErrVal) :
    Except ErrVal (LoopState W × Bool) :=
  if inp.rollbackOnError then
    let effects' :=
      match inp.effectsMode with
      | .immutable => st.effects
      | .mutable => ares.effects
    .ok ({ effects := effects',
           trace := st.trace ++ [{ ruleId := rule.id, matched := true,
                                   conditions := condTraces,
                                   notes := ares.notes ++ ["error: " ++ renderError e],
                                   error := some (renderError e), skippedReason := none,
                                   meta := rule.meta }],
           fired := st.fired ++ [rule.id],
           world := w2 }, true)
  else
    .error e

/-- One iteration of `runSync`'s rule loop (`src/ruleset.ts`): skip check,
short-circuit condition evaluation, working-effects construction, action
invocation with the async-misuse check, patch merging, commit, and the
error-handling `catch`.  Returns the updated loop state and whether the rule
matched (for the `activation: "first"` break); propagates uncaught errors. -/
def processRule {F W : Type} (inp : RunInput F W) (rule : Rule F W) (st : LoopState W) :
    Except ErrVal (LoopState W × Bool) :=
  match getSkipReason rule.meta inp.includeTags inp.excludeTags with
  | some reason =>
    .ok ({ st with trace := st.trace ++ [{ ruleId := rule.id, matched := false,
                                           conditions := [], notes := [], error := none,
                                           skippedReason := some reason,
                                           meta := rule.meta }] }, false)
  | none =>
    let (matched, condTraces, w1) := evalConds rule.conditions inp.facts st.world
    if matched then
      let working := workingEffectsOf inp.effectsMode st.effects
      let (ares, w2) := rule.action inp.facts working w1
      match ares.out with
      | .ret patch =>
        .ok ({ effects := applyPatch ares.effects patch inp.mergeStrategy,
               trace := st.trace ++ [{ ruleId := rule.id, matched := true,
                                       conditions := condTraces, notes := ares.notes,
                                       error := none, skippedReason := none,
                                       meta := rule.meta }],
               fired := st.fired ++ [rule.id],
               world := w2 }, true)
      | .promise =>
        catchAction inp rule st condTraces ares w2 ⟨"Error", asyncDetectedMessage⟩
      | .throws e =>
        catchAction inp rule st condTraces ares w2 e
    else
      .ok ({ st with
             trace := st.trace ++ [{ ruleId := rule.id, matched := false,
                                     conditions := condTraces, notes := [], error := none,
                                     skippedReason := none, meta := rule.meta }],
             world := w1 }, false)

/-- The `for (const rule of rules)` loop of `runSync`, including the
`activation: "first"` break after a matched rule. -/
def runRules {F W : Type} (inp : RunInput F W) :
    List (Rule F W) → LoopState W → Except ErrVal (LoopState W)
  | [], st => .ok st
  | rule :: rest, st =>
    match processRule inp rule st with
    | .error e => .error e
    | .ok (st1, matched) =>
      if matched then
        match inp.activation with
        | .first => .ok st1
        | .all => runRules inp rest st1
      else
        runRules inp rest st1

/-- The observable `RunResult` of a completed run (plus the final world
state; `explain` is a lazy rendering of `trace` and carries no extra data). -/
structure RunResult (W : Type) : Type where
  effects : Effects
  fired : List String
  trace : List RuleTrace
  world : W

/-- Run an optional validator hook. -/
def runValidator {α : Type} (v : Option (α → Except ErrVal Unit)) (x : α) :
    Except ErrVal Unit :=
  match v with
  | some f => f x
  | none => .ok ()

/-- `runSync` from `src/ruleset.ts`: validate facts, create and validate the
default effects (`defaultEffectsFactory()` is called once per run; the model
factory is a pure function, so its value is written out where used), run the
rule loop, re-validate the final effects, and produce the run result.  An
error thrown at any stage propagates to the caller. -/
def runSync {F W : Type} (inp : RunInput F W) (w : W) : Except ErrVal (RunResult W) :=
  match runValidator inp.validateFactsFn inp.facts with
  | .error e => .error e
  | .ok _ =>
    match runValidator inp.validateEffectsFn (inp.defaultEffectsFactory ()) with
    | .error e => .error e
    | .ok _ =>
      match runRules inp inp.rules { effects := inp.defaultEffectsFactory (), trace := [],
                                     fired := [], world := w } with
      | .error e => .error e
      | .ok st =>
        match runValidator inp.validateEffectsFn st.effects with
        | .error e => .error e
        | .ok _ =>
          .ok { effects := st.effects, fired := st.fired, trace := st.trace,
                world := st.world }

/-! ### Ruleset assembly and compilation (`src/ruleset.ts`) -/

/-- A finalized rule declaration as accumulated by `RuleBuilderImpl` before
`end()`: everything of a `Rule` except the insertion `order`, which the
owning ruleset assigns at finalization.  (`end()` also rejects a rule with
no action; here `action` is mandatory by type.) -/
structure RuleDecl (F W : Type) : Type where
  id : String
  priority : Int
  conditions : List (Cond F W)
  action : Action F W
  meta : Option RuleMeta

/-- The mutable state of `RulesetBuilderImpl`. -/
structure RulesetBuilder (F W : Type) : Type where
  rules : List (Rule F W) := []
  defaultEffectsFactory : Option (Unit → Effects) := none
  validateFactsFn : Option (F → Except ErrVal Unit) := none
  validateEffectsFn : Option (Effects → Except ErrVal Unit) := none
  nextOrder : Nat := 0

/-- `end()` on a rule builder: assign the next insertion order
(`_nextOrder()`), append the finalized rule (`_addRule`). -/
def endRule {F W : Type} (b : RulesetBuilder F W) (d : RuleDecl F W) : RulesetBuilder F W :=
  { b with
    rules := b.rules ++ [{ id := d.id, priority := d.priority, order := b.nextOrder,
                           conditions := d.conditions, action := d.action, meta := d.meta }],
    nextOrder := b.nextOrder + 1 }

/-- Declare a sequence of rules on a fresh ruleset builder, finalizing each
with `end()` in the given order. -/
def declRuleset {F W : Type} (ds : List (RuleDecl F W)) : RulesetBuilder F W :=
  ds.foldl endRule {}

/-- The comparator of `compile()`'s sort, as the stable ordering predicate
`cmp(a, b) <= 0`: higher priority first, and insertion order as the
tie-breaker for equal priorities. -/
def ruleLE {F W : Type} (a b : Rule F W) : Bool :=
  if a.priority = b.priority then a.order ≤ b.order else b.priority < a.priority

/-- The compiled execution order: `[...this.rules].sort(...)` — a stable sort
by `(priority desc, order asc)`, computed once at compile time. -/
def compiledRules {F W : Type} (b : RulesetBuilder F W) : List (Rule F W) :=
  b.rules.mergeSort ruleLE

/-- A compiled engine: the sorted rules plus the captured factory and
validators; `run` closes over these and never modifies them. -/
structure Engine (F W : Type) : Type where
  rules : List (Rule F W)
  defaultEffectsFactory : Unit → Effects
  validateFactsFn : Option (F → Except ErrVal Unit)
  validateEffectsFn : Option (Effects → Except ErrVal Unit)

/-- `compile()` from `src/ruleset.ts`: fail when no default-effects factory
was registered, otherwise sort the rules and build the engine. -/
def compile {F W : Type} (b : RulesetBuilder F W) : Except ErrVal (Engine F W) :=
  match b.defaultEffectsFactory with
  | none => .error ⟨"Error", "defaultEffects() is required before compile()."⟩
  | some factory =>
    .ok { rules := compiledRules b, defaultEffectsFactory := factory,
          validateFactsFn := b.validateFactsFn, validateEffectsFn := b.validateEffectsFn }

/-- `engine.run(input)`: defaults resolved by the destructuring
(`activation = "all"`, `effectsMode = "mutable"`, `mergeStrategy = "assign"`,
`rollbackOnError = false`), then `runSync` over the compiled rules. -/
def Engine.run {F W : Type} (eng : Engine F W) (facts : F) (activation : Activation)
    (effectsMode : EffectsMode) (mergeStrategy : MergeStrategy) (rollbackOnError : Bool)
    (includeTags excludeTags : Option (List String)) (w : W) : Except ErrVal (RunResult W) :=
  runSync { facts := facts, activation := activation, effectsMode := effectsMode,
            mergeStrategy := mergeStrategy, rollbackOnError := rollbackOnError,
            includeTags := includeTags, excludeTags := excludeTags, rules := eng.rules,
            defaultEffectsFactory := eng.defaultEffectsFactory,
            validateFactsFn := eng.validateFactsFn,
            validateEffectsFn := eng.validateEffectsFn } w

/-! ### Determinism of runs -/

/-- A condition is deterministic when the trace it produces does not depend
on the external world state (it may still advance that state). -/
def CondDet {F W : Type} (c : Cond F W) : Prop :=
  ∀ (facts : F) (w w' : W), (c facts w).1 = (c facts w').1

/-- An action is deterministic when its observable result (mutated working
effects, notes, outcome) depends only on the facts and the working effects
value, not on the external world state. -/
def ActionDet {F W : Type} (a : Action F W) : Prop :=
  ∀ (facts : F) (eff : Effects) (w w' : W), (a facts eff w).1 = (a facts eff w').1

/-- The world-independent observables of a loop state. -/
def LoopState.obs {W : Type} (st : LoopState W) : Effects × List RuleTrace × List String :=
  (st.effects, st.trace, st.fired)

/-- The world-independent observables of one rule step's result. -/
def stepObs {W : Type} : Except ErrVal (LoopState W × Bool) →
    Except ErrVal ((Effects × List RuleTrace × List String) × Bool)
  | .error e => .error e
  | .ok (st, matched) => .ok (st.obs, matched)

/-- The world-independent observables of a whole loop's result. -/
def loopObs {W : Type} : Except ErrVal (LoopState W) →
    Except ErrVal (Effects × List RuleTrace × List String)
  | .error e => .error e
  | .ok st => .ok st.obs

/-! ### Concrete fixtures used by witnesses and counterexamples -/

/-- A deterministic always-true condition that advances a world counter. -/
def detCond : Cond Unit Nat :=
  fun _ w => (CTrace.mk "always" true none none none none none, w + 1)

/-- A deterministic patch-returning action that advances a world counter. -/
def detRule : Rule Unit Nat :=
  { id := "r", priority := 0, order := 0, conditions := [detCond],
    action := fun _ eff w =>
      ({ effects := eff, notes := [], out := .ret (some [("x", .num 1)]) }, w + 1),
    meta := none }

/-- An immutable-mode run of `detRule`. -/
def detInput : RunInput Unit Nat :=
  { facts := (), activation := .all, effectsMode := .immutable, mergeStrategy := .assign,
    rollbackOnError := false, includeTags := none, excludeTags := none,
    rules := [detRule], defaultEffectsFactory := fun _ => [],
    validateFactsFn := none, validateEffectsFn := none }

/-- A counting stub condition: returns the fixed result `r` under label
`c<i>` and logs its own invocation by appending `i` to the world state. -/
def countingCond (i : Nat) (r : Bool) : Cond Unit (List Nat) :=
  fun _ log => (CTrace.mk (String.append "c" (toString i)) r none none none none none, log ++ [i])

/-- A rule with no conditions whose action sets `x := 1` on the working
effects object in place and then throws `"boom"`. -/
def mutateThenThrowRule : Rule Unit Unit :=
  { id := "r", priority := 0, order := 0, conditions := [],
    action := fun _ eff w =>
      ({ effects := setKey eff "x" (.num 1), notes := [],
         out := .throws ⟨"Error", "boom"⟩ }, w),
    meta := none }

/-- A run of `mutateThenThrowRule` with rollback-on-error under the default
`mutable` effects mode, starting from effects `{x: 0}`. -/
def rollbackMutableInput : RunInput Unit Unit :=
  { facts := (), activation := .all, effectsMode := .mutable, mergeStrategy := .assign,
    rollbackOnError := true, includeTags := none, excludeTags := none,
    rules := [mutateThenThrowRule], defaultEffectsFactory := fun _ => [("x", .num 0)],
    validateFactsFn := none, validateEffectsFn := none }

/-- The same run as `rollbackMutableInput` but under `immutable` effects
mode, where the action mutates only the discarded clone. -/
def rollbackImmutableInput : RunInput Unit Unit :=
  { facts := (), activation := .all, effectsMode := .immutable, mergeStrategy := .assign,
    rollbackOnError := true, includeTags := none, excludeTags := none,
    rules := [mutateThenThrowRule], defaultEffectsFactory := fun _ => [("x", .num 0)],
    validateFactsFn := none, validateEffectsFn := none }

/-- A rule with no conditions whose action returns a suspension-bearing
(`Promise`) result without mutating anything. -/
def asyncActionRule : Rule Unit Unit :=
  { id := "r", priority := 0, order := 0, conditions := [],
    action := fun _ eff w => ({ effects := eff, notes := [], out := .promise }, w),
    meta := none }

/-- A non-suspending run of `asyncActionRule` with rollback-on-error. -/
def asyncRollbackInput : RunInput Unit Unit :=
  { facts := (), activation := .all, effectsMode := .mutable, mergeStrategy := .assign,
    rollbackOnError := true, includeTags := none, excludeTags := none,
    rules := [asyncActionRule], defaultEffectsFactory := fun _ => [],
    validateFactsFn := none, validateEffectsFn := none }

/-- A non-suspending run of `asyncActionRule` with the default options. -/
def asyncDefaultInput : RunInput Unit Unit :=
  { facts := (), activation := .all, effectsMode := .mutable, mergeStrategy := .assign,
    rollbackOnError := false, includeTags := none, excludeTags := none,
    rules := [asyncActionRule], defaultEffectsFactory := fun _ => [],
    validateFactsFn := none, validateEffectsFn := none }

/-- A rule with no conditions whose action throws without mutating. -/
def noCondThrowRule : Rule Unit Unit :=
  { id := "r", priority := 0, order := 0, conditions := [],
    action := fun _ eff w => ({ effects := eff, notes := [], out := .throws ⟨"Error", "boom"⟩ }, w),
    meta := none }

/-- A default-options run of `noCondThrowRule`. -/
def noCondThrowInput : RunInput Unit Unit :=
  { facts := (), activation := .all, effectsMode := .mutable, mergeStrategy := .assign,
    rollbackOnError := false, includeTags := none, excludeTags := none,
    rules := [noCondThrowRule], defaultEffectsFactory := fun _ => [],
    validateFactsFn := none, validateEffectsFn := none }

/-- A rule with no conditions whose action returns the patch `{x: 1}`. -/
def noCondPatchRule : Rule Unit Unit :=
  { id := "r", priority := 0, order := 0, conditions := [],
    action := fun _ eff w =>
      ({ effects := eff, notes := [], out := .ret (some [("x", .num 1)]) }, w),
    meta := none }

/-- A default-options run of `noCondPatchRule`. -/
def noCondPatchInput : RunInput Unit Unit :=
  { facts := (), activation := .all, effectsMode := .mutable, mergeStrategy := .assign,
    rollbackOnError := false, includeTags := none, excludeTags := none,
    rules := [noCondPatchRule], defaultEffectsFactory := fun _ => [],
    validateFactsFn := none, validateEffectsFn := none }

/-! ### Helper lemmas -/

theorem getPathValueAux_ok : ∀ (parts : List String) (current : Option JVal),
    ∃ r : Option JVal, getPathValueAux parts current = .ok r
  | [], current => ⟨current, rfl⟩
  | part :: rest, current => by
    match current with
    | none => exact ⟨none, rfl⟩
    | some .null => exact ⟨none, rfl⟩
    | some (.bool b) => exact ⟨none, rfl⟩
    | some (.num n) => exact ⟨none, rfl⟩
    | some (.str s) => exact ⟨none, rfl⟩
    | some (.obj fields) =>
      obtain ⟨r, hr⟩ := getPathValueAux_ok rest (lookupField fields part)
      exact ⟨r, by simpa [getPathValueAux, jsIsIndexable, jsGetMember] using hr⟩
    | some (.arr elems) =>
      obtain ⟨r, hr⟩ := getPathValueAux_ok rest
        (match part.toNat? with
         | some i => elems.get? i
         | none => none)
      exact ⟨r, by simpa [getPathValueAux, jsIsIndexable, jsGetMember] using hr⟩

theorem evalConds_append_of_true {F W : Type} (l1 l2 : List (Cond F W)) (facts : F) (w : W)
    (ts : List CTrace) (w1 : W) (h : evalConds l1 facts w = (true, ts, w1)) :
    evalConds (l1 ++ l2) facts w =
      ((evalConds l2 facts w1).1, ts ++ (evalConds l2 facts w1).2.1,
       (evalConds l2 facts w1).2.2) := by
  induction l1 generalizing w ts with
  | nil =>
    simp only [evalConds, Prod.mk.injEq, true_and] at h
    obtain ⟨hts, hw⟩ := h
    subst hts hw
    rfl
  | cons c rest ih =>
    rcases hc : c facts w with ⟨t, wa⟩
    rcases he : evalConds rest facts wa with ⟨m, ts2, wb⟩
    simp only [evalConds, hc, he] at h
    by_cases hr : t.result
    · rw [if_pos hr] at h
      simp only [Prod.mk.injEq] at h
      obtain ⟨hm, hts, hw⟩ := h
      subst hts hw
      have happ := ih wa ts2 (by rw [he, hm])
      show evalConds (c :: (rest ++ l2)) facts w = _
      simp only [evalConds, hc, hr, if_true, happ]
      rfl
    · rw [if_neg hr] at h
      simp only [Prod.mk.injEq] at h
      exact absurd h.1 (by simp)

theorem lookupField_setKey_self (t : Fields) (k : String) (v : JVal) :
    lookupField (setKey t k v) k = some v := by
  induction t with
  | nil => simp [setKey, lookupField]
  | cons kv rest ih =>
    rcases kv with ⟨k0, v0⟩
    by_cases h : k0 = k
    · simp [setKey, h, lookupField]
    · simp [setKey, h, lookupField, ih]

theorem lookupField_setKey_ne (t : Fields) (k key : String) (v : JVal) (h : key ≠ k) :
    lookupField (setKey t k v) key = lookupField t key := by
  have hne : ¬ k = key := fun he => h he.symm
  induction t with
  | nil => simp [setKey, lookupField, hne]
  | cons kv rest ih =>
    rcases kv with ⟨k0, v0⟩
    by_cases h0 : k0 = k
    · subst h0
      simp [setKey, lookupField, hne]
    · simp [setKey, h0, lookupField, ih]

theorem lookupField_eq_none (l : Fields) (key : String) (h : key ∉ l.map Prod.fst) :
    lookupField l key = none := by
  induction l with
  | nil => rfl
  | cons kv rest ih =>
    rcases kv with ⟨k0, v0⟩
    simp only [List.map_cons, List.mem_cons, not_or] at h
    have hne : ¬ k0 = key := fun he => h.1 he.symm
    simp [lookupField, hne, ih h.2]

theorem lookupField_deepMergeEntry_ne (target : Fields) (k key : String) (v : JVal)
    (h : key ≠ k) :
    lookupField (deepMergeEntry target k v) key = lookupField target key := by
  cases v <;> simp [deepMergeEntry, lookupField_setKey_ne _ _ _ _ h]

theorem deepMergeObj_lookup : ∀ (patch target : Fields) (key : String),
    (patch.map Prod.fst).Nodup →
    lookupField (deepMergeObj target patch) key =
      (match lookupField patch key with
       | none => lookupField target key
       | some (.obj patchFields) =>
         some (.obj (deepMergeObj
           (match lookupField target key with
            | some (.obj targetFields) => targetFields
            | _ => []) patchFields))
       | some v => some v)
  | [], target, key, _ => by simp [deepMergeObj, lookupField]
  | (k, v) :: rest, target, key, hnodup => by
    have hnodup' : k ∉ rest.map Prod.fst ∧ (rest.map Prod.fst).Nodup := by
      rw [List.map_cons, List.nodup_cons] at hnodup
      exact hnodup
    obtain ⟨hk, hrest⟩ := hnodup'
    rw [deepMergeObj, deepMergeObj_lookup rest (deepMergeEntry target k v) key hrest]
    by_cases hkey : k = key
    · subst hkey
      rw [lookupField_eq_none rest k hk]
      show lookupField (deepMergeEntry target k v) k =
        (match lookupField ((k, v) :: rest) k with
         | none => lookupField target k
         | some (.obj patchFields) =>
           some (.obj (deepMergeObj
             (match lookupField target k with
              | some (.obj targetFields) => targetFields
              | _ => []) patchFields))
         | some v => some v)
      cases v <;> simp [deepMergeEntry, lookupField, lookupField_setKey_self]
    · rw [lookupField_deepMergeEntry_ne target k key v (fun he => hkey he.symm)]
      have hpkey : lookupField ((k, v) :: rest) key = lookupField rest key := by
        simp [lookupField, hkey]
      rw [hpkey]

theorem threadConds_length {F W : Type} (conditions : List (Cond F W)) (facts : F) (w : W) :
    (threadConds conditions facts w).1.length = conditions.length := by
  induction conditions generalizing w with
  | nil => rfl
  | cons c rest ih => simp [threadConds, ih]

theorem threadConds_append {F W : Type} (l1 l2 : List (Cond F W)) (facts : F) (w : W) :
    threadConds (l1 ++ l2) facts w =
      ((threadConds l1 facts w).1 ++ (threadConds l2 facts (threadConds l1 facts w).2).1,
       (threadConds l2 facts (threadConds l1 facts w).2).2) := by
  induction l1 generalizing w with
  | nil => rfl
  | cons c rest ih => simp [threadConds, ih]

theorem ruleLE_trans {F W : Type} (a b c : Rule F W) (hab : ruleLE a b) (hbc : ruleLE b c) :
    ruleLE a c := by
  unfold ruleLE at hab hbc ⊢
  by_cases h1 : a.priority = b.priority
  · rw [if_pos h1] at hab
    by_cases h2 : b.priority = c.priority
    · rw [if_pos h2] at hbc
      rw [if_pos (h1.trans h2)]
      simp only [decide_eq_true_eq] at hab hbc ⊢
      omega
    · rw [if_neg h2] at hbc
      have h3 : ¬ a.priority = c.priority := by rw [h1]; exact h2
      rw [if_neg h3]
      simp only [decide_eq_true_eq] at hbc ⊢
      omega
  · rw [if_neg h1] at hab
    by_cases h2 : b.priority = c.priority
    · rw [if_pos h2] at hbc
      have h3 : ¬ a.priority = c.priority := by rw [← h2]; exact h1
      rw [if_neg h3]
      simp only [decide_eq_true_eq] at hab ⊢
      omega
    · rw [if_neg h2] at hbc
      simp only [decide_eq_true_eq] at hab hbc
      have h3 : ¬ a.priority = c.priority := by omega
      rw [if_neg h3]
      simp only [decide_eq_true_eq]
      omega

theorem ruleLE_total {F W : Type} (a b : Rule F W) : ruleLE a b || ruleLE b a := by
  unfold ruleLE
  by_cases h : a.priority = b.priority
  · rw [if_pos h, if_pos h.symm]
    simp only [Bool.or_eq_true, decide_eq_true_eq]
    omega
  · rw [if_neg h, if_neg (fun he => h he.symm)]
    simp only [Bool.or_eq_true, decide_eq_true_eq]
    omega

theorem foldl_endRule_orders {F W : Type} : ∀ (ds : List (RuleDecl F W)) (b : RulesetBuilder F W),
    (ds.foldl endRule b).rules.map Rule.order =
      b.rules.map Rule.order ++ List.range' b.nextOrder ds.length
    ∧ (ds.foldl endRule b).nextOrder = b.nextOrder + ds.length
  | [], b => by simp
  | d :: rest, b => by
    have ih := foldl_endRule_orders rest (endRule b d)
    constructor
    · rw [List.foldl_cons, ih.1]
      simp [endRule, List.range'_succ]
    · rw [List.foldl_cons, ih.2]
      simp [endRule]
      omega

theorem declRuleset_orders {F W : Type} (ds : List (RuleDecl F W)) :
    (declRuleset ds).rules.map Rule.order = List.range ds.length := by
  have h := (foldl_endRule_orders ds ({} : RulesetBuilder F W)).1
  simpa [declRuleset, List.range_eq_range'] using h

theorem processRule_matched {F W : Type} (inp : RunInput F W) (rule : Rule F W)
    (st : LoopState W) (cts : List CTrace) (w1 : W) (ares : ActionResult) (w2 : W)
    (hskip : getSkipReason rule.meta inp.includeTags inp.excludeTags = none)
    (hconds : evalConds rule.conditions inp.facts st.world = (true, cts, w1))
    (hact : rule.action inp.facts (workingEffectsOf inp.effectsMode st.effects) w1 = (ares, w2)) :
    processRule inp rule st =
      (match ares.out with
       | .ret patch =>
         .ok ({ effects := applyPatch ares.effects patch inp.mergeStrategy,
                trace := st.trace ++ [{ ruleId := rule.id, matched := true,
                                        conditions := cts, notes := ares.notes,
                                        error := none, skippedReason := none,
                                        meta := rule.meta }],
                fired := st.fired ++ [rule.id],
                world := w2 }, true)
       | .promise => catchAction inp rule st cts ares w2 ⟨"Error", asyncDetectedMessage⟩
       | .throws e => catchAction inp rule st cts ares w2 e) := by
  simp only [processRule, hskip, hconds, hact, if_true]

theorem processRule_skipped {F W : Type} (inp : RunInput F W) (rule : Rule F W)
    (st : LoopState W) (reason : String)
    (hskip : getSkipReason rule.meta inp.includeTags inp.excludeTags = some reason) :
    processRule inp rule st =
      .ok ({ st with trace := st.trace ++ [{ ruleId := rule.id, matched := false,
                                             conditions := [], notes := [], error := none,
                                             skippedReason := some reason,
                                             meta := rule.meta }] }, false) := by
  simp only [processRule, hskip]

theorem processRule_unmatched {F W : Type} (inp : RunInput F W) (rule : Rule F W)
    (st : LoopState W) (cts : List CTrace) (w1 : W)
    (hskip : getSkipReason rule.meta inp.includeTags inp.excludeTags = none)
    (hconds : evalConds rule.conditions inp.facts st.world = (false, cts, w1)) :
    processRule inp rule st =
      .ok ({ st with trace := st.trace ++ [{ ruleId := rule.id, matched := false,
                                             conditions := cts, notes := [], error := none,
                                             skippedReason := none, meta := rule.meta }],
                     world := w1 }, false) := by
  simp only [processRule, hskip, hconds, Bool.false_eq_true, if_false]

theorem evalConds_det {F W : Type} : ∀ (conds : List (Cond F W)),
    (∀ c ∈ conds, CondDet c) → ∀ (facts : F) (w w' : W),
    (evalConds conds facts w).1 = (evalConds conds facts w').1
    ∧ (evalConds conds facts w).2.1 = (evalConds conds facts w').2.1
  | [], _, facts, w, w' => ⟨rfl, rfl⟩
  | c :: rest, hdet, facts, w, w' => by
    have hc := hdet c (List.mem_cons_self c rest) facts w w'
    rcases h1 : c facts w with ⟨t, wa⟩
    rcases h2 : c facts w' with ⟨t', wa'⟩
    rw [h1, h2] at hc
    have ht : t = t' := hc
    subst ht
    have ih := evalConds_det rest (fun c hcm => hdet c (List.mem_cons_of_mem _ hcm)) facts wa wa'
    rcases e1 : evalConds rest facts wa with ⟨m, ts, wb⟩
    rcases e2 : evalConds rest facts wa' with ⟨m', ts', wb'⟩
    rw [e1, e2] at ih
    have hm : m = m' := ih.1
    have hts : ts = ts' := ih.2
    subst hm hts
    simp only [evalConds, h1, h2, e1, e2]
    by_cases hr : t.result
    · rw [if_pos hr, if_pos hr]
      exact ⟨rfl, rfl⟩
    · rw [if_neg hr, if_neg hr]
      exact ⟨rfl, rfl⟩

theorem processRule_det {F W : Type} (inp : RunInput F W) (rule : Rule F W)
    (hc : ∀ c ∈ rule.conditions, CondDet c) (ha : ActionDet rule.action)
    (eff : Effects) (tr : List RuleTrace) (fd : List String) (w w' : W) :
    stepObs (processRule inp rule ⟨eff, tr, fd, w⟩) =
      stepObs (processRule inp rule ⟨eff, tr, fd, w'⟩) := by
  cases hsk : getSkipReason rule.meta inp.includeTags inp.excludeTags with
  | some reason =>
    rw [processRule_skipped inp rule _ reason hsk, processRule_skipped inp rule _ reason hsk]
    rfl
  | none =>
    have hdet := evalConds_det rule.conditions hc inp.facts w w'
    rcases e1 : evalConds rule.conditions inp.facts w with ⟨m, ts, wb⟩
    rcases e2 : evalConds rule.conditions inp.facts w' with ⟨m', ts', wb'⟩
    rw [e1, e2] at hdet
    have hm : m = m' := hdet.1
    have hts : ts = ts' := hdet.2
    subst hm hts
    cases m with
    | false =>
      rw [processRule_unmatched inp rule _ ts wb hsk e1,
          processRule_unmatched inp rule _ ts wb' hsk e2]
      rfl
    | true =>
      rcases a1 : rule.action inp.facts (workingEffectsOf inp.effectsMode eff) wb
        with ⟨ares, wc⟩
      rcases a2 : rule.action inp.facts (workingEffectsOf inp.effectsMode eff) wb'
        with ⟨ares2, wc2⟩
      have hares : ares = ares2 := by
        have h := ha inp.facts (workingEffectsOf inp.effectsMode eff) wb wb'
        rw [a1, a2] at h
        exact h
      subst hares
      rw [processRule_matched inp rule ⟨eff, tr, fd, w⟩ ts wb ares wc hsk e1 a1,
          processRule_matched inp rule ⟨eff, tr, fd, w'⟩ ts wb' ares wc2 hsk e2 a2]
      cases ho : ares.out with
      | ret patch => rfl
      | promise =>
        simp only [catchAction]
        by_cases hr : inp.rollbackOnError = true
        · rw [if_pos hr, if_pos hr]
          cases inp.effectsMode <;> rfl
        · rw [if_neg hr, if_neg hr]
      | throws e =>
        simp only [catchAction]
        by_cases hr : inp.rollbackOnError = true
        · rw [if_pos hr, if_pos hr]
          cases inp.effectsMode <;> rfl
        · rw [if_neg hr, if_neg hr]

theorem runRules_det {F W : Type} (inp : RunInput F W) : ∀ (rules : List (Rule F W)),
    (∀ r ∈ rules, (∀ c ∈ r.conditions, CondDet c) ∧ ActionDet r.action) →
    ∀ (eff : Effects) (tr : List RuleTrace) (fd : List String) (w w' : W),
    loopObs (runRules inp rules ⟨eff, tr, fd, w⟩) = loopObs (runRules inp rules ⟨eff, tr, fd, w'⟩)
  | [], _, eff, tr, fd, w, w' => rfl
  | rule :: rest, hdet, eff, tr, fd, w, w' => by
    have hrule := hdet rule (List.mem_cons_self rule rest)
    have hstep := processRule_det inp rule hrule.1 hrule.2 eff tr fd w w'
    rcases p1 : processRule inp rule ⟨eff, tr, fd, w⟩ with e1 | ⟨st1, m1⟩ <;>
      rcases p2 : processRule inp rule ⟨eff, tr, fd, w'⟩ with e2 | ⟨st2, m2⟩ <;>
      rw [p1, p2] at hstep <;>
      simp only [stepObs, LoopState.obs, Except.error.injEq, Except.ok.injEq,
        Prod.mk.injEq] at hstep
    · rw [runRules, runRules, p1, p2, hstep]
    · exact absurd hstep (by simp)
    · exact absurd hstep (by simp)
    · obtain ⟨⟨he, ht, hf⟩, hm⟩ := hstep
      have ih := runRules_det inp rest (fun r hr => hdet r (List.mem_cons_of_mem _ hr))
        st1.effects st1.trace st1.fired st1.world st2.world
      rw [runRules, runRules, p1, p2]
      subst hm
      cases m1 with
      | false =>
        simp only [Bool.false_eq_true, if_false]
        calc loopObs (runRules inp rest st1)
            = loopObs (runRules inp rest ⟨st1.effects, st1.trace, st1.fired, st1.world⟩) := rfl
          _ = loopObs (runRules inp rest ⟨st1.effects, st1.trace, st1.fired, st2.world⟩) := ih
          _ = loopObs (runRules inp rest st2) := by rw [he, ht, hf]
      | true =>
        simp only [if_true]
        cases inp.activation with
        | first =>
          simp only [loopObs, LoopState.obs, he, ht, hf]
        | all =>
          calc loopObs (runRules inp rest st1)
              = loopObs (runRules inp rest ⟨st1.effects, st1.trace, st1.fired, st1.world⟩) := rfl
            _ = loopObs (runRules inp rest ⟨st1.effects, st1.trace, st1.fired, st2.world⟩) := ih
            _ = loopObs (runRules inp rest st2) := by rw [he, ht, hf]

/-! ### Claim theorems -/

/-- C8: for every facts value and every dotted path, `getPathValue` never
throws: it walks successive keys, returning `undefined` whenever a segment is
missing or the current value is not an indexable structure.  The embedding
makes the raw member access (`jsGetMember`) throw on `undefined`/`null`
receivers exactly as JS does, and proves the indexability guard keeps that
error branch unreachable for arbitrary inputs. -/
theorem getPathValue_never_throws (facts : JVal) (path : String) :
    ∃ r : Option JVal, getPathValue facts path = .ok r :=
  getPathValueAux_ok (path.splitOn ".") (some facts)

/-- C5: `op.and` and `op.or` evaluate every child exactly once — the
composite trace's `children` are precisely the full left-to-right threaded
evaluation of all children (one trace per child, world state threaded
through every one of them, with no short-circuit: the threading of
`pre ++ post` always runs `post`, as the append conjunct states), `left`
holds the child labels, the result is the conjunction (resp. disjunction)
of the child results, and with zero children `and` yields `true` and `or`
yields `false`. -/
theorem opAnd_opOr_evaluate_all_children {F W : Type} (label : String)
    (conditions : List (Cond F W)) (facts : F) (w : W) :
    (opAnd label conditions facts w =
      (CTrace.mk label ((threadConds conditions facts w).1.all (fun child => child.result))
        (some (.arr ((threadConds conditions facts w).1.map (fun child => .str child.label))))
        (some "and") none (some (threadConds conditions facts w).1) none,
       (threadConds conditions facts w).2))
    ∧ (opOr label conditions facts w =
      (CTrace.mk label ((threadConds conditions facts w).1.any (fun child => child.result))
        (some (.arr ((threadConds conditions facts w).1.map (fun child => .str child.label))))
        (some "or") none (some (threadConds conditions facts w).1) none,
       (threadConds conditions facts w).2))
    ∧ (threadConds conditions facts w).1.length = conditions.length
    ∧ (∀ pre post : List (Cond F W),
        threadConds (pre ++ post) facts w =
          ((threadConds pre facts w).1 ++ (threadConds post facts (threadConds pre facts w).2).1,
           (threadConds post facts (threadConds pre facts w).2).2))
    ∧ (opAnd label ([] : List (Cond F W)) facts w).1.result = true
    ∧ (opOr label ([] : List (Cond F W)) facts w).1.result = false := by
  refine ⟨rfl, rfl, threadConds_length conditions facts w,
    fun pre post => threadConds_append pre post facts w, rfl, rfl⟩

/-- C4: the rule-level condition loop short-circuits.  When the conditions
before position k all evaluate to true (threading the world state) and the
condition at position k evaluates to false, the loop returns
`matched = false`, the trace holds exactly the traces of positions 0..k, and
the resulting world state is exactly the one produced by evaluating
positions 0..k once each in order — for every continuation `post`, so no
condition past the failing one is ever invoked and contributes nothing to
the state. -/
theorem evalConds_short_circuits {F W : Type} (pre : List (Cond F W)) (c : Cond F W)
    (facts : F) (w : W) (ts : List CTrace) (w1 : W)
    (hpre : evalConds pre facts w = (true, ts, w1))
    (hfalse : (c facts w1).1.result = false) :
    ∀ post : List (Cond F W),
      evalConds (pre ++ c :: post) facts w = (false, ts ++ [(c facts w1).1], (c facts w1).2) := by
  intro post
  rw [evalConds_append_of_true pre (c :: post) facts w ts w1 hpre]
  rcases hc : c facts w1 with ⟨t, wa⟩
  rw [hc] at hfalse
  simp only [evalConds, hc, hfalse, if_neg, Bool.false_eq_true]
  rfl

/-- C6: under merge strategy `deep`, each patched key whose value is a plain
non-array object is merged recursively into the corresponding target field
(re-created as a fresh object when the target value is missing, not an
object, or an array), any other patched value — arrays included — fully
overwrites the target field, and target keys not present in the patch are
left unchanged.  Stated for patches with JS-object keys (no duplicates). -/
theorem mergeEffects_deep_characterization (target patch : Fields) (key : String)
    (hnodup : (patch.map Prod.fst).Nodup) :
    lookupField (mergeEffects target patch MergeStrategy.deep) key =
      (match lookupField patch key with
       | none => lookupField target key
       | some (.obj patchFields) =>
         some (.obj (deepMergeObj
           (match lookupField target key with
            | some (.obj targetFields) => targetFields
            | _ => []) patchFields))
       | some v => some v) :=
  deepMergeObj_lookup patch target key hnodup

/-- C6 witness: merging the patch `{stats: {count: 2}}` into the effects
`{stats: {count: 0}, fired: []}` under strategy `deep` yields
`{stats: {count: 2}, fired: []}` without clobbering the sibling key. -/
theorem mergeEffects_deep_characterization_witness :
    lookupField (mergeEffects [("stats", .obj [("count", .num 0)]), ("fired", .arr [])]
      [("stats", .obj [("count", .num 2)])] MergeStrategy.deep) "stats" =
      some (.obj [("count", .num 2)])
    ∧ lookupField (mergeEffects [("stats", .obj [("count", .num 0)]), ("fired", .arr [])]
      [("stats", .obj [("count", .num 2)])] MergeStrategy.deep) "fired" =
      some (.arr [])
    ∧ mergeEffects [("stats", .obj [("count", .num 0)]), ("fired", .arr [])]
      [("stats", .obj [("count", .num 2)])] MergeStrategy.deep =
      [("stats", .obj [("count", .num 2)]), ("fired", .arr [])] := by
  refine ⟨?_, ?_, rfl⟩
  · exact (mergeEffects_deep_characterization
      [("stats", .obj [("count", .num 0)]), ("fired", .arr [])]
      [("stats", .obj [("count", .num 2)])] "stats" (by simp)).trans rfl
  · exact (mergeEffects_deep_characterization
      [("stats", .obj [("count", .num 0)]), ("fired", .arr [])]
      [("stats", .obj [("count", .num 2)])] "fired" (by simp)).trans rfl

/-- C3: for every sequence of rule declarations finalized with `end()`, the
compiled execution order is (priority descending, declaration order
ascending): position i before position j implies
`priority[i] > priority[j]`, or equal priorities and rule i finalized
before rule j (insertion orders are exactly the declaration indices, as the
second conjunct states).  The order is a pure function of the builder,
computed once by `compile()`; runs receive it as an immutable value, so it
is identical across every run of the same compiled engine. -/
theorem compiledRules_priority_then_declaration {F W : Type} (ds : List (RuleDecl F W)) :
    (compiledRules (declRuleset ds)).Pairwise
      (fun a b => a.priority > b.priority ∨ (a.priority = b.priority ∧ a.order < b.order))
    ∧ (declRuleset ds).rules.map Rule.order = List.range ds.length := by
  have horders := declRuleset_orders (F := F) (W := W) ds
  have hlt : (declRuleset ds).rules.Pairwise (fun a b => a.order < b.order) := by
    have hr := List.pairwise_lt_range ds.length
    rw [← horders, List.pairwise_map] at hr
    exact hr
  have hne : (declRuleset ds).rules.Pairwise (fun a b => a.order ≠ b.order) :=
    hlt.imp (fun h => Nat.ne_of_lt h)
  have hperm : List.Perm (compiledRules (declRuleset ds)) (declRuleset ds).rules :=
    List.mergeSort_perm _ _
  have hne' : (compiledRules (declRuleset ds)).Pairwise (fun a b => a.order ≠ b.order) :=
    (hperm.pairwise_iff (fun h => Ne.symm h)).mpr hne
  have hle : (compiledRules (declRuleset ds)).Pairwise (fun a b => ruleLE a b) :=
    List.sorted_mergeSort ruleLE_trans ruleLE_total _
  refine ⟨(hle.and hne').imp ?_, horders⟩
  rintro a b ⟨h1, h2⟩
  unfold ruleLE at h1
  by_cases hp : a.priority = b.priority
  · rw [if_pos hp] at h1
    exact Or.inr ⟨hp, Nat.lt_of_le_of_ne (of_decide_eq_true h1) h2⟩
  · rw [if_neg hp] at h1
    exact Or.inl (of_decide_eq_true h1)

/-- C1 amended: under `rollbackOnError = true`, when a matched rule's action
throws, the run does not propagate the error — it is recorded in the rule's
trace `error` field plus an appended `error:` note, the rule's id still
appears in `fired`, and the loop proceeds to the next rule (shown for
`activation = "all"`; under `"first"` a matched rule ends the loop by
design).  The committed effects are left exactly as they were before the
action ran under `effectsMode = "immutable"`; under `"mutable"` the action
works on the live effects object, so in-place mutations it made before
throwing persist (see the counterexample). -/
theorem rollbackOnError_swallows_and_continues {F W : Type} (inp : RunInput F W)
    (rule : Rule F W) (rest : List (Rule F W)) (st : LoopState W) (cts : List CTrace)
    (w1 : W) (ares : ActionResult) (w2 : W) (e : ErrVal)
    (hroll : inp.rollbackOnError = true)
    (hmode : inp.effectsMode = EffectsMode.immutable)
    (hskip : getSkipReason rule.meta inp.includeTags inp.excludeTags = none)
    (hconds : evalConds rule.conditions inp.facts st.world = (true, cts, w1))
    (hact : rule.action inp.facts (workingEffectsOf inp.effectsMode st.effects) w1 = (ares, w2))
    (hout : ares.out = ActionOut.throws e) :
    processRule inp rule st =
      .ok ({ effects := st.effects,
             trace := st.trace ++ [{ ruleId := rule.id, matched := true, conditions := cts,
                                     notes := ares.notes ++ ["error: " ++ renderError e],
                                     error := some (renderError e), skippedReason := none,
                                     meta := rule.meta }],
             fired := st.fired ++ [rule.id],
             world := w2 }, true)
    ∧ (inp.activation = Activation.all →
        runRules inp (rule :: rest) st =
          runRules inp rest
            { effects := st.effects,
              trace := st.trace ++ [{ ruleId := rule.id, matched := true, conditions := cts,
                                      notes := ares.notes ++ ["error: " ++ renderError e],
                                      error := some (renderError e), skippedReason := none,
                                      meta := rule.meta }],
              fired := st.fired ++ [rule.id],
              world := w2 }) := by
  have hp := processRule_matched inp rule st cts w1 ares w2 hskip hconds hact
  rw [hout] at hp
  have hstep : processRule inp rule st =
      .ok ({ effects := st.effects,
             trace := st.trace ++ [{ ruleId := rule.id, matched := true, conditions := cts,
                                     notes := ares.notes ++ ["error: " ++ renderError e],
                                     error := some (renderError e), skippedReason := none,
                                     meta := rule.meta }],
             fired := st.fired ++ [rule.id],
             world := w2 }, true) := by
    rw [hp]
    simp only [catchAction, hroll, hmode, if_true]
  refine ⟨hstep, fun hall => ?_⟩
  simp only [runRules, hstep, hall, if_true]

/-- C1 counterexample: with `rollbackOnError = true` under the default
`mutable` effects mode, an action that sets `x := 1` on the live effects
object and then throws leaves the run's final effects at `{x: 1}` — not
"exactly as it was before the action ran" (`{x: 0}`), even though the error
is swallowed, the trace records it, and the id is in `fired`. -/
theorem rollback_mutable_keeps_inplace_mutation :
    runSync rollbackMutableInput () =
      .ok { effects := [("x", JVal.num 1)], fired := ["r"],
            trace := [{ ruleId := "r", matched := true, conditions := [],
                        notes := ["error: Error: boom"], error := some "Error: boom",
                        skippedReason := none, meta := none }],
            world := () }
    ∧ ([("x", JVal.num 1)] : Effects) ≠ [("x", JVal.num 0)] := by
  refine ⟨rfl, fun h => ?_⟩
  simp at h

/-- C1 witness: the same throwing action under `immutable` effects mode with
rollback-on-error: the error is swallowed and recorded with a note, the id
is in `fired`, and the committed effects stay `{x: 0}`. -/
theorem rollbackOnError_swallows_and_continues_witness :
    processRule rollbackImmutableInput mutateThenThrowRule
        { effects := [("x", JVal.num 0)], trace := [], fired := [], world := () } =
      .ok ({ effects := [("x", JVal.num 0)],
             trace := [{ ruleId := "r", matched := true, conditions := [],
                         notes := ["error: Error: boom"], error := some "Error: boom",
                         skippedReason := none, meta := none }],
             fired := ["r"], world := () }, true) := by
  have h := rollbackOnError_swallows_and_continues rollbackImmutableInput mutateThenThrowRule []
    { effects := [("x", JVal.num 0)], trace := [], fired := [], world := () } [] ()
    { effects := [("x", JVal.num 1)], notes := [], out := .throws ⟨"Error", "boom"⟩ } ()
    ⟨"Error", "boom"⟩ rfl rfl rfl rfl rfl rfl
  exact h.1

/-- C2 amended: when `rollbackOnError` is false (the default), a matched rule
whose action returns a suspension-bearing (`Promise`) result makes the
non-suspending run raise the distinct async-misuse error with message
`"Async rule action detected. Use runAsync()."` instead of awaiting; the
abort happens before the merge/commit step of that rule, so no patch is
merged and no working copy is committed.  (With `rollbackOnError = true` the
misuse error is caught like an action failure — recorded in the trace — and
the run continues; see the counterexample.) -/
theorem run_raises_async_misuse {F W : Type} (inp : RunInput F W) (rule : Rule F W)
    (rest : List (Rule F W)) (st : LoopState W) (cts : List CTrace) (w1 : W)
    (ares : ActionResult) (w2 : W)
    (hroll : inp.rollbackOnError = false)
    (hskip : getSkipReason rule.meta inp.includeTags inp.excludeTags = none)
    (hconds : evalConds rule.conditions inp.facts st.world = (true, cts, w1))
    (hact : rule.action inp.facts (workingEffectsOf inp.effectsMode st.effects) w1 = (ares, w2))
    (hout : ares.out = ActionOut.promise) :
    processRule inp rule st = .error ⟨"Error", asyncDetectedMessage⟩
    ∧ runRules inp (rule :: rest) st = .error ⟨"Error", asyncDetectedMessage⟩
    ∧ asyncDetectedMessage = "Async rule action detected. Use runAsync()." := by
  have hp := processRule_matched inp rule st cts w1 ares w2 hskip hconds hact
  rw [hout] at hp
  have hstep : processRule inp rule st = .error ⟨"Error", asyncDetectedMessage⟩ := by
    rw [hp]
    simp only [catchAction, hroll, Bool.false_eq_true, if_false]
  refine ⟨hstep, ?_, rfl⟩
  simp only [runRules, hstep]

/-- C2 counterexample: with `rollbackOnError = true`, a run against a rule
whose action is suspension-bearing does not raise the async-misuse error to
the caller: `run` returns normally, the error only recorded in the rule's
trace, and the rule id is in `fired`. -/
theorem run_async_misuse_not_raised_under_rollback :
    runSync asyncRollbackInput () =
      .ok { effects := [], fired := ["r"],
            trace := [{ ruleId := "r", matched := true, conditions := [],
                        notes := ["error: Error: Async rule action detected. Use runAsync()."],
                        error := some "Error: Async rule action detected. Use runAsync().",
                        skippedReason := none, meta := none }],
            world := () } := rfl

/-- C2 witness: a default-options run against the suspension-bearing action
raises the async-misuse error. -/
theorem run_raises_async_misuse_witness :
    runRules asyncDefaultInput [asyncActionRule]
        { effects := [], trace := [], fired := [], world := () } =
      .error ⟨"Error", asyncDetectedMessage⟩ := by
  have h := run_raises_async_misuse asyncDefaultInput asyncActionRule []
    { effects := [], trace := [], fired := [], world := () } [] ()
    { effects := [], notes := [], out := .promise } () rfl rfl rfl rfl rfl
  exact h.2.1

/-- C10 amended: a non-skipped rule whose condition list is empty is treated
as `matched = true` and its action is invoked; provided the action completes
without an uncaught error (here: it returns normally), the rule id is
recorded in `fired` and the action's result is committed.  (If the action
throws with rollback off, the run aborts before recording the id — see the
counterexample.) -/
theorem empty_conditions_always_fire {F W : Type} (inp : RunInput F W) (rule : Rule F W)
    (st : LoopState W) (ares : ActionResult) (w2 : W) (patch : Option Fields)
    (hskip : getSkipReason rule.meta inp.includeTags inp.excludeTags = none)
    (hconds : rule.conditions = [])
    (hact : rule.action inp.facts (workingEffectsOf inp.effectsMode st.effects) st.world =
      (ares, w2))
    (hout : ares.out = ActionOut.ret patch) :
    processRule inp rule st =
      .ok ({ effects := applyPatch ares.effects patch inp.mergeStrategy,
             trace := st.trace ++ [{ ruleId := rule.id, matched := true, conditions := [],
                                     notes := ares.notes, error := none, skippedReason := none,
                                     meta := rule.meta }],
             fired := st.fired ++ [rule.id], world := w2 }, true) := by
  have hc : evalConds rule.conditions inp.facts st.world = (true, [], st.world) := by
    rw [hconds]
    rfl
  have hp := processRule_matched inp rule st [] st.world ares w2 hskip hc hact
  rw [hout] at hp
  rw [hp]

/-- C10 counterexample: a rule with an empty condition list whose action
throws, run with rollback off, aborts the whole run with the error — the
rule id is never recorded in any `fired` list, so a no-condition rule does
not unconditionally "record its id in the fired list". -/
theorem empty_conditions_throwing_aborts :
    runSync noCondThrowInput () = .error ⟨"Error", "boom"⟩ := rfl

/-- C10 witness: a no-condition rule whose action returns the patch `{x: 1}`
matches, fires, and commits the patch. -/
theorem empty_conditions_always_fire_witness :
    processRule noCondPatchInput noCondPatchRule
        { effects := [], trace := [], fired := [], world := () } =
      .ok ({ effects := [("x", JVal.num 1)],
             trace := [{ ruleId := "r", matched := true, conditions := [], notes := [],
                         error := none, skippedReason := none, meta := none }],
             fired := ["r"], world := () }, true) := by
  have h := empty_conditions_always_fire noCondPatchInput noCondPatchRule
    { effects := [], trace := [], fired := [], world := () }
    { effects := [], notes := [], out := .ret (some [("x", JVal.num 1)]) } ()
    (some [("x", JVal.num 1)]) rfl rfl rfl rfl
  exact h

/-- C7: two separate runs of the same compiled engine against identical
facts with `effectsMode = "immutable"` and deterministic rule conditions and
actions produce structurally equal `effects`, `fired` and `trace` values,
whatever external world states the two runs start from.  (The two runs build
their effects from separate `defaultEffectsFactory()` calls and clones, so
in the value semantics each run owns its result outright — equality here is
structural, not aliasing.) -/
theorem runSync_deterministic {F W : Type} (inp : RunInput F W) (w w' : W)
    (hmode : inp.effectsMode = EffectsMode.immutable)
    (hdet : ∀ r ∈ inp.rules, (∀ c ∈ r.conditions, CondDet c) ∧ ActionDet r.action) :
    (runSync inp w).map (fun res => (res.effects, res.fired, res.trace)) =
      (runSync inp w').map (fun res => (res.effects, res.fired, res.trace)) := by
  unfold runSync
  cases hv1 : runValidator inp.validateFactsFn inp.facts with
  | error e => rfl
  | ok u =>
    cases hv2 : runValidator inp.validateEffectsFn (inp.defaultEffectsFactory ()) with
    | error e => rfl
    | ok u2 =>
      have hrr := runRules_det inp inp.rules hdet (inp.defaultEffectsFactory ()) [] [] w w'
      rcases r1 : runRules inp inp.rules ⟨inp.defaultEffectsFactory (), [], [], w⟩
        with e1 | st1 <;>
        rcases r2 : runRules inp inp.rules ⟨inp.defaultEffectsFactory (), [], [], w'⟩
          with e2 | st2 <;>
        rw [r1, r2] at hrr <;>
        simp only [loopObs, LoopState.obs, Except.error.injEq, Except.ok.injEq,
          Prod.mk.injEq] at hrr
      · rw [hrr]
      · exact absurd hrr (by simp)
      · exact absurd hrr (by simp)
      · obtain ⟨he, ht, hf⟩ := hrr
        dsimp only
        rw [he, ht, hf]
        cases hv3 : runValidator inp.validateEffectsFn st2.effects with
        | error e => rfl
        | ok u3 => rfl

/-- C7 witness: the deterministic one-rule engine run from two different
world states (0 and 5) yields identical effects, fired list and trace. -/
theorem runSync_deterministic_witness :
    (runSync detInput 0).map (fun res => (res.effects, res.fired, res.trace)) =
      (runSync detInput 5).map (fun res => (res.effects, res.fired, res.trace)) := by
  refine runSync_deterministic detInput 0 5 rfl ?_
  intro r hr
  have hr' : r = detRule := List.mem_singleton.mp hr
  subst hr'
  refine ⟨?_, fun facts eff w w' => rfl⟩
  intro c hc
  have hc' : c = detCond := List.mem_singleton.mp hc
  subst hc'
  exact fun facts w w' => rfl

/-- C9 counterexample: `compile()` on a builder with no default-effects
factory does throw, but the thrown message is
`"defaultEffects() is required before compile()."` — the spec's quoted
phrase followed by a trailing period, so the message is not exactly the
claimed string. -/
theorem compile_error_message_not_exact :
    compile ({} : RulesetBuilder Unit Unit) =
      .error ⟨"Error", "defaultEffects() is required before compile()."⟩
    ∧ ("defaultEffects() is required before compile()." : String) ≠
      "defaultEffects() is required before compile()" :=
  ⟨rfl, by decide⟩

/-- C9 amended: for every ruleset builder on which no default-effects
factory was registered, `compile()` fails (never a silent default) with an
error whose message is `"defaultEffects() is required before compile()."` —
the spec's phrase with a trailing period. -/
theorem compile_requires_defaultEffects {F W : Type} (b : RulesetBuilder F W)
    (h : b.defaultEffectsFactory = none) :
    compile b = .error ⟨"Error", "defaultEffects() is required before compile()."⟩ := by
  unfold compile
  rw [h]

/-- C9 witness: a fresh builder compiled without registering a
default-effects factory fails with the exact error. -/
theorem compile_requires_defaultEffects_witness :
    compile ({} : RulesetBuilder Bool Nat) =
      .error ⟨"Error", "defaultEffects() is required before compile()."⟩ :=
  compile_requires_defaultEffects _ rfl

/-- C4 witness: three counting stubs, the second one false; the loop marks
the rule unmatched, records exactly the first two traces, and the invocation
log `[0, 1]` shows conditions 0 and 1 ran exactly once while condition 2 was
never invoked. -/
theorem evalConds_short_circuits_witness :
    evalConds [countingCond 0 true, countingCond 1 false, countingCond 2 true] () [] =
      (false,
       [CTrace.mk "c0" true none none none none none,
        CTrace.mk "c1" false none none none none none],
       [0, 1]) := by
  have h := evalConds_short_circuits [countingCond 0 true] (countingCond 1 false) () []
    [CTrace.mk "c0" true none none none none none] [0] rfl rfl [countingCond 2 true]
  exact h

end Rulit
